import Mathlib

/-!
Shallow embedding of `src/linux_sys_3/find_max_module.c` (the `find_max_init`
routine of the "Find Max" kernel module) and proofs about it.

The C routine:
  * validates the load-time parameter count (`num_elements`): `<= 0` or `> 16`
    fails with `-EINVAL` (= `-22`), otherwise it proceeds and returns `0`;
  * renders the received array into a 256-byte `char` buffer via `snprintf`,
    setting a truncation warning and breaking out of the loop when a piece
    does not fit in the remaining space;
  * scans the elements once for the maximum, seeded at `INT_MIN`;
  * scans again collecting every index whose element equals the maximum into
    a 16-slot local array, with an overflow warning if the slots run out;
  * renders the collected indices into another 256-byte buffer the same way,
    or logs a "should not happen" warning when no index was collected.

Machine integers are modelled as `Int`/`Nat`; the supplied parameter list is a
`List Int` and the global `input_array[16]` slot `i` read by the loops is
`a.getD i 0` (the static array is zero-initialised, and `module_param_array`
fills its first `num_elements` slots). `snprintf` is modelled at the level of
byte counts: a call with remaining size `s` and would-be output length `r`
writes `min (r+1) s` bytes (truncating, always NUL-terminating when `s > 0`)
and returns `r`.
-/

namespace FindMaxModule

/-- `MAX_ARRAY_SIZE` from the C source. -/
def MAX_ARRAY_SIZE : Nat := 16

/-- `INT_MIN` of the C `int` type (32-bit, as on every Linux target). -/
def INT_MIN : Int := -2147483648

/-- `INT_MAX` of the C `int` type. -/
def INT_MAX : Int := 2147483647

/-- `x` is representable as a C `int` (signed 32-bit). -/
def IsInt32 (x : Int) : Prop := INT_MIN ≤ x ∧ x ≤ INT_MAX

instance (x : Int) : Decidable (IsInt32 x) := by unfold IsInt32; infer_instance

/-- The sequence of values the loops read: slot `i` of the 16-slot global
`input_array` holds the `i`-th supplied value, or `0` for slots the parameter
parser did not fill (the static array is zero-initialised). -/
def eff (a : List Int) (n : Nat) : List Int := (List.range n).map (fun i => a.getD i 0)

/-- The first scan of `find_max_init`
(`for i: if (input_array[i] > max_val) max_val = input_array[i];`),
with the running maximum `m` passed explicitly. -/
def scanMaxAux : List Int → Int → Int
  | [], m => m
  | x :: rest, m => scanMaxAux rest (if x > m then x else m)

/-- The first scan starting from the seed `max_val = INT_MIN` (line 22). -/
def scanMax (l : List Int) : Int := scanMaxAux l INT_MIN

/-- The second scan of `find_max_init` without the 16-slot capacity cap: the
indices (counted from `i`) of the elements of `l` that equal `m`, in order. -/
def matchIndices (m : Int) : List Int → Nat → List Nat
  | [], _ => []
  | x :: rest, i =>
    if x = m then i :: matchIndices m rest (i + 1) else matchIndices m rest (i + 1)

/-- The second scan of `find_max_init` (lines 63-74): walk the elements pairing
them with indices `i, i+1, ...`, appending each matching index to `acc`
(`max_indices[count] = i; count++;`) while `count < MAX_ARRAY_SIZE`; when a
match arrives with the slots full the loop warns and breaks (`Bool` result). -/
def collectIndicesAux (m : Int) : List Int → Nat → List Nat → List Nat × Bool
  | [], _, acc => (acc, false)
  | x :: rest, i, acc =>
    if x = m then
      if acc.length < MAX_ARRAY_SIZE then
        collectIndicesAux m rest (i + 1) (acc ++ [i])
      else
        (acc, true)
    else
      collectIndicesAux m rest (i + 1) acc

/-- The second scan, started with `count = 0` at index `0`. -/
def collectIndices (l : List Int) (m : Int) : List Nat × Bool :=
  collectIndicesAux m l 0 []

/-- Length of the decimal rendering of `n` by `snprintf`'s `%d`/`%u`: exact for
every `n < 10^10`, which covers the whole magnitude range of a 32-bit `int`
(`|x| ≤ 2^31 = 2147483648 < 10^10`), the only values `%d` is given here. -/
def natDecLen (n : Nat) : Nat :=
  if n < 10 then 1 else if n < 100 then 2 else if n < 1000 then 3
  else if n < 10000 then 4 else if n < 100000 then 5 else if n < 1000000 then 6
  else if n < 10000000 then 7 else if n < 100000000 then 8 else if n < 1000000000 then 9
  else if n < 10000000000 then 10 else 11

/-- Length of the decimal rendering of a signed value by `%d`: a leading `-`
plus the digits of the magnitude for negatives. -/
def intDecLen (x : Int) : Nat :=
  if x < 0 then 1 + natDecLen (-x).toNat else natDecLen x.toNat

/-- The per-iteration piece lengths of a rendering loop: `f x` for the last
element, `f x + 2` (the `", "` separator) for the others — mirroring
`(i == n - 1) ? "" : ", "`. -/
def withSeps (f : α → Nat) : List α → List Nat
  | [] => []
  | [x] => [f x]
  | x :: y :: rest => (f x + 2) :: withSeps f (y :: rest)

/-- Bytes `snprintf` writes into a destination of remaining size `s` when the
formatted output is `r` characters: nothing if `s = 0`, else at most `s` bytes
(truncated output plus the terminating NUL), at best `r + 1`. -/
def snprintfBytes (s r : Nat) : Nat := if s = 0 then 0 else min (r + 1) s

/-- One rendering loop of `find_max_init` (lines 44-52 and 83-91), abstracted
over the piece lengths: each iteration calls `snprintf` at `offset` with
remaining size `cap - offset`; if the returned length `r` satisfies
`r >= cap - offset` the loop warns (`Bool` result) and breaks, otherwise
`offset += r`. The third component is the high-water mark: the largest
one-past-the-end byte position any `snprintf` call wrote to. -/
def renderLoop (cap : Nat) : List Nat → Nat → Nat → Nat × Bool × Nat
  | [], offset, hw => (offset, false, hw)
  | r :: rest, offset, hw =>
    let hw2 := max hw (offset + snprintfBytes (cap - offset) r)
    if cap - offset ≤ r then (offset, true, hw2)
    else renderLoop cap rest (offset + r) hw2

/-- Length of the header `"Received %d element(s): ["` (lines 41): 23 fixed
characters plus the digits of the element count. -/
def arrayHeaderLen (n : Nat) : Nat := 23 + natDecLen n

/-- Rendering of the received-array string (lines 38-54) into the 256-byte
`array_str` buffer: header, then one piece per element (value plus separator),
then the closing `"]"` whose return value the C does not check. Returns
(final offset, truncation-warning flag, high-water mark of bytes written). -/
def renderArrayStr (l : List Int) : Nat × Bool × Nat :=
  let hdr := arrayHeaderLen l.length
  let hw0 := snprintfBytes 256 hdr
  let r := renderLoop 256 (withSeps intDecLen l) hdr hw0
  (r.1, r.2.1, max r.2.2 (r.1 + snprintfBytes (256 - r.1) 1))

/-- Length of the header `"Found at index/indices: ["` (line 81). -/
def indicesHeaderLen : Nat := 25

/-- Rendering of the indices string (lines 77-93) into the 256-byte
`indices_str` buffer, same shape as `renderArrayStr`. -/
def renderIndicesStr (idxs : List Nat) : Nat × Bool × Nat :=
  let hw0 := snprintfBytes 256 indicesHeaderLen
  let r := renderLoop 256 (withSeps natDecLen idxs) indicesHeaderLen hw0
  (r.1, r.2.1, max r.2.2 (r.1 + snprintfBytes (256 - r.1) 1))

/-- Everything `find_max_init` computes and logs after validation passes. -/
structure InitOutput where
  /-- `max_val` after the first scan. -/
  maxVal : Int
  /-- The contents of `max_indices[0..count)` after the second scan. -/
  indices : List Nat
  /-- Final `offset` in `array_str`. -/
  arrayStrOffset : Nat
  /-- Whether `"Input array string truncated."` was logged. -/
  arrayTruncWarn : Bool
  /-- High-water mark of bytes written into `array_str`. -/
  arrayHW : Nat
  /-- Whether `"More occurrences of max value found than index storage allows"`
  was logged. -/
  overflowWarn : Bool
  /-- Final `offset` in `indices_str` (0 when that block is skipped). -/
  indicesStrOffset : Nat
  /-- Whether `"Indices string truncated."` was logged. -/
  indicesTruncWarn : Bool
  /-- High-water mark of bytes written into `indices_str`. -/
  indicesHW : Nat
  /-- Whether the `count == 0` branch (`"this should not happen!"`) ran. -/
  noIndexWarn : Bool
deriving Repr, DecidableEq

/-- The post-validation body of `find_max_init` on the effective element list
`l = eff input_array num_elements`. -/
def computeOutput (l : List Int) : InitOutput :=
  let ar := renderArrayStr l
  let maxVal := scanMax l
  let ci := collectIndices l maxVal
  let ir := if 0 < ci.1.length then renderIndicesStr ci.1 else (0, false, 0)
  { maxVal := maxVal
    indices := ci.1
    arrayStrOffset := ar.1
    arrayTruncWarn := ar.2.1
    arrayHW := ar.2.2
    overflowWarn := ci.2
    indicesStrOffset := ir.1
    indicesTruncWarn := ir.2.1
    indicesHW := ir.2.2
    noIndexWarn := ci.1.isEmpty }

/-- `find_max_init` (lines 20-98): `a` is the parsed parameter list and
`num_elements` the count set by `module_param_array`. Returns the C return
value (`0` or `-EINVAL = -22`) and, when validation passes, the computed
output. -/
def find_max_init (a : List Int) (num_elements : Int) : Int × Option InitOutput :=
  if num_elements ≤ 0 then (-22, none)
  else if num_elements > (MAX_ARRAY_SIZE : Int) then (-22, none)
  else (0, some (computeOutput (eff a num_elements.toNat)))

/-!
A second, state-passing view of the same routine, used to settle the frame
property: the module-scope globals `input_array` and `num_elements` together
with the locals the loops mutate are carried through every iteration, each
loop body is a step function on that state, and we prove the globals come out
unchanged.
-/

/-- The module-scope globals of `find_max_module.c`. -/
structure KGlobals where
  /-- `static int input_array[MAX_ARRAY_SIZE]` as the list of supplied values,
  slot `i` read as `input_array.getD i 0`. -/
  input_array : List Int
  /-- `static int num_elements`. -/
  num_elements : Int
deriving Repr, DecidableEq

/-- The globals plus every variable some loop of `find_max_init` writes. -/
structure KState where
  /-- Global: the parameter array. -/
  input_array : List Int
  /-- Global: the element count. -/
  num_elements : Int
  /-- Local `max_val`. -/
  max_val : Int
  /-- Local `max_indices[0..count)`; its length is `count`. -/
  max_indices : List Nat
  /-- Whether the index-storage overflow branch ran (after the `break` the
  remaining iterations are skipped, modelled by making the step idle). -/
  overflowWarn : Bool
  /-- Local `offset` of the `array_str` rendering block. -/
  arrOffset : Nat
  /-- Whether the `array_str` rendering loop hit its truncation `break`. -/
  arrTrunc : Bool
  /-- Local `offset` of the `indices_str` rendering block. -/
  indOffset : Nat
  /-- Whether the `indices_str` rendering loop hit its truncation `break`. -/
  indTrunc : Bool
deriving Repr, DecidableEq

/-- Iteration `i` of the `array_str` rendering loop (lines 44-52). -/
def renderArrStep (s : KState) (i : Nat) : KState :=
  if s.arrTrunc then s
  else
    let r := intDecLen (s.input_array.getD i 0) +
      (if i = s.num_elements.toNat - 1 then 0 else 2)
    if 256 - s.arrOffset ≤ r then { s with arrTrunc := true }
    else { s with arrOffset := s.arrOffset + r }

/-- Iteration `i` of the first scan (lines 56-60). -/
def scanStep (s : KState) (i : Nat) : KState :=
  if s.input_array.getD i 0 > s.max_val then
    { s with max_val := s.input_array.getD i 0 }
  else s

/-- Iteration `i` of the second scan (lines 63-74). -/
def collectStep (s : KState) (i : Nat) : KState :=
  if s.overflowWarn then s
  else if s.input_array.getD i 0 = s.max_val then
    if s.max_indices.length < MAX_ARRAY_SIZE then
      { s with max_indices := s.max_indices ++ [i] }
    else
      { s with overflowWarn := true }
  else s

/-- Iteration `i` of the `indices_str` rendering loop (lines 84-91). -/
def renderIndStep (s : KState) (i : Nat) : KState :=
  if s.indTrunc then s
  else
    let r := natDecLen (s.max_indices.getD i 0) +
      (if i = s.max_indices.length - 1 then 0 else 2)
    if 256 - s.indOffset ≤ r then { s with indTrunc := true }
    else { s with indOffset := s.indOffset + r }

/-- The state at function entry: the globals plus the locals as the C
initialises them (`max_val = INT_MIN`, `count = 0`, each render `offset` just
past its header). -/
def initialKState (g : KGlobals) : KState :=
  { input_array := g.input_array, num_elements := g.num_elements
    max_val := INT_MIN, max_indices := [], overflowWarn := false
    arrOffset := arrayHeaderLen g.num_elements.toNat, arrTrunc := false
    indOffset := indicesHeaderLen, indTrunc := false }

/-- The state after the `array_str` rendering loop. The loop bound is the
value of `num_elements` at entry; the preservation lemmas below show no step
changes it, so this matches the C's re-reading it each iteration. -/
def stateAfterArrRender (g : KGlobals) : KState :=
  (List.range g.num_elements.toNat).foldl renderArrStep (initialKState g)

/-- The state after the first scan. -/
def stateAfterScan (g : KGlobals) : KState :=
  (List.range g.num_elements.toNat).foldl scanStep (stateAfterArrRender g)

/-- The state after the second scan. -/
def stateAfterCollect (g : KGlobals) : KState :=
  (List.range g.num_elements.toNat).foldl collectStep (stateAfterScan g)

/-- The state after the whole body: the `indices_str` rendering loop runs only
when `count > 0`, over `count` iterations. -/
def stateFinal (g : KGlobals) : KState :=
  if 0 < (stateAfterCollect g).max_indices.length then
    (List.range (stateAfterCollect g).max_indices.length).foldl renderIndStep
      (stateAfterCollect g)
  else stateAfterCollect g

/-- `find_max_init` as a transformer on the module state: validation, the
`array_str` rendering loop, both scans, and the `indices_str` rendering loop,
returning the final globals and the return value. -/
def find_max_init_st (g : KGlobals) : KGlobals × Int :=
  if g.num_elements ≤ 0 then (g, -22)
  else if g.num_elements > (MAX_ARRAY_SIZE : Int) then (g, -22)
  else
    ({ input_array := (stateFinal g).input_array
       num_elements := (stateFinal g).num_elements }, 0)

/-! ### Lemmas about the effective element list -/

lemma length_eff (a : List Int) (n : Nat) : (eff a n).length = n := by
  simp [eff]

lemma eff_self (a : List Int) : eff a a.length = a := by
  apply List.ext_getElem
  · simp [eff]
  · intro i h1 h2
    simp only [eff, List.getElem_map, List.getElem_range]
    exact List.getD_eq_getElem a 0 h2

/-! ### Lemmas about the first scan -/

lemma le_scanMaxAux (l : List Int) (m : Int) : m ≤ scanMaxAux l m := by
  induction l generalizing m with
  | nil => simp [scanMaxAux]
  | cons x rest ih =>
    simp only [scanMaxAux]
    refine le_trans ?_ (ih (if x > m then x else m))
    split <;> omega

lemma scanMaxAux_le_of_mem {x : Int} {l : List Int} (hx : x ∈ l) (m : Int) :
    x ≤ scanMaxAux l m := by
  induction l generalizing m with
  | nil => cases hx
  | cons y rest ih =>
    simp only [scanMaxAux]
    rcases List.mem_cons.mp hx with h | h
    · subst h
      refine le_trans ?_ (le_scanMaxAux rest _)
      split <;> omega
    · exact ih h _

lemma scanMaxAux_mem_or (l : List Int) (m : Int) :
    scanMaxAux l m ∈ l ∨ scanMaxAux l m = m := by
  induction l generalizing m with
  | nil => simp [scanMaxAux]
  | cons x rest ih =>
    simp only [scanMaxAux]
    rcases ih (if x > m then x else m) with h | h
    · exact Or.inl (List.mem_cons_of_mem x h)
    · rw [h]
      split
      · exact Or.inl (List.mem_cons_self x rest)
      · exact Or.inr rfl

lemma scanMax_mem {l : List Int} (hne : l ≠ []) (hlb : ∀ x ∈ l, INT_MIN ≤ x) :
    scanMax l ∈ l := by
  rcases scanMaxAux_mem_or l INT_MIN with h | h
  · exact h
  · rcases List.exists_mem_of_ne_nil l hne with ⟨x, hx⟩
    have h1 : x ≤ scanMax l := scanMaxAux_le_of_mem hx INT_MIN
    have h2 : INT_MIN ≤ x := hlb x hx
    have : x = scanMax l := by
      unfold scanMax at *; omega
    exact this ▸ hx

lemma le_scanMax {x : Int} {l : List Int} (hx : x ∈ l) : x ≤ scanMax l :=
  scanMaxAux_le_of_mem hx INT_MIN

/-! ### Lemmas about the uncapped index collector -/

lemma mem_matchIndices {m : Int} {l : List Int} {i j : Nat}
    (hj : j ∈ matchIndices m l i) :
    i ≤ j ∧ j - i < l.length ∧ l.getD (j - i) 0 = m := by
  induction l generalizing i with
  | nil => simp [matchIndices] at hj
  | cons x rest ih =>
    simp only [matchIndices] at hj
    by_cases hx : x = m
    · rw [if_pos hx] at hj
      rcases List.mem_cons.mp hj with h | h
      · subst h
        simp [hx]
      · rcases ih h with ⟨h1, h2, h3⟩
        refine ⟨by omega, ?_, ?_⟩
        · simp only [List.length_cons]; omega
        · have hji : j - i = (j - (i + 1)) + 1 := by omega
          rw [hji]
          simpa using h3
    · rw [if_neg hx] at hj
      rcases ih hj with ⟨h1, h2, h3⟩
      refine ⟨by omega, ?_, ?_⟩
      · simp only [List.length_cons]; omega
      · have hji : j - i = (j - (i + 1)) + 1 := by omega
        rw [hji]
        simpa using h3

lemma matchIndices_lb {m : Int} {l : List Int} {i j : Nat}
    (hj : j ∈ matchIndices m l i) : i ≤ j :=
  (mem_matchIndices hj).1

lemma matchIndices_pairwise (m : Int) (l : List Int) (i : Nat) :
    List.Pairwise (· < ·) (matchIndices m l i) := by
  induction l generalizing i with
  | nil => simp [matchIndices]
  | cons x rest ih =>
    simp only [matchIndices]
    split
    · refine List.pairwise_cons.mpr ⟨?_, ih (i + 1)⟩
      intro j hj
      have := matchIndices_lb hj
      omega
    · exact ih (i + 1)

lemma matchIndices_ne_nil {m : Int} {l : List Int} (hm : m ∈ l) (i : Nat) :
    matchIndices m l i ≠ [] := by
  induction l generalizing i with
  | nil => cases hm
  | cons x rest ih =>
    simp only [matchIndices]
    rcases List.mem_cons.mp hm with h | h
    · rw [if_pos h.symm]; simp
    · split
      · simp
      · exact ih h (i + 1)

lemma matchIndices_length_le (m : Int) (l : List Int) (i : Nat) :
    (matchIndices m l i).length ≤ l.length := by
  induction l generalizing i with
  | nil => simp [matchIndices]
  | cons x rest ih =>
    simp only [matchIndices]
    split
    · simpa using ih (i + 1)
    · have := ih (i + 1)
      simp only [List.length_cons]
      omega

/-! ### The capped collector agrees with the uncapped one on small inputs -/

lemma collectIndicesAux_eq_matchIndices (m : Int) (l : List Int) (i : Nat)
    (acc : List Nat) (h : acc.length + l.length ≤ MAX_ARRAY_SIZE) :
    collectIndicesAux m l i acc = (acc ++ matchIndices m l i, false) := by
  induction l generalizing i acc with
  | nil => simp [collectIndicesAux, matchIndices]
  | cons x rest ih =>
    simp only [List.length_cons] at h
    simp only [collectIndicesAux, matchIndices]
    by_cases hx : x = m
    · have hlt : acc.length < MAX_ARRAY_SIZE := by omega
      have harg : (acc ++ [i]).length + rest.length ≤ MAX_ARRAY_SIZE := by
        simp only [List.length_append, List.length_cons, List.length_nil]
        omega
      rw [if_pos hx, if_pos hlt, ih (i + 1) (acc ++ [i]) harg, if_pos hx]
      simp
    · rw [if_neg hx, if_neg hx]
      exact ih (i + 1) acc (by omega)

lemma collectIndices_eq {l : List Int} (m : Int) (h : l.length ≤ MAX_ARRAY_SIZE) :
    collectIndices l m = (matchIndices m l 0, false) := by
  unfold collectIndices
  rw [collectIndicesAux_eq_matchIndices m l 0 [] (by simpa using h)]
  simp

/-! ### Lemmas about decimal lengths and rendering -/

lemma natDecLen_le_eleven (n : Nat) : natDecLen n ≤ 11 := by
  unfold natDecLen; split_ifs <;> omega

lemma natDecLen_le_ten {n : Nat} (h : n < 10000000000) : natDecLen n ≤ 10 := by
  unfold natDecLen; split_ifs <;> omega

lemma natDecLen_le_two {n : Nat} (h : n < 100) : natDecLen n ≤ 2 := by
  unfold natDecLen; split_ifs <;> omega

lemma intDecLen_le_eleven {x : Int} (h : IsInt32 x) : intDecLen x ≤ 11 := by
  rcases h with ⟨hlo, hhi⟩
  unfold INT_MIN at hlo
  unfold INT_MAX at hhi
  unfold intDecLen
  split
  · have : (-x).toNat < 10000000000 := by omega
    have := natDecLen_le_ten this
    omega
  · have : x.toNat < 10000000000 := by omega
    exact le_trans (natDecLen_le_ten this) (by omega)

lemma withSeps_length (f : α → Nat) : ∀ l : List α, (withSeps f l).length = l.length
  | [] => by simp [withSeps]
  | [_] => by simp [withSeps]
  | x :: y :: rest => by
    simp only [withSeps, List.length_cons]
    rw [withSeps_length f (y :: rest)]
    simp

lemma withSeps_le {f : α → Nat} {c : Nat} :
    ∀ {l : List α}, (∀ x ∈ l, f x ≤ c) → ∀ p ∈ withSeps f l, p ≤ c + 2
  | [], _, p, hp => by simp [withSeps] at hp
  | [x], h, p, hp => by
    simp only [withSeps, List.mem_singleton] at hp
    subst hp
    exact le_trans (h x (by simp)) (by omega)
  | x :: y :: rest, h, p, hp => by
    simp only [withSeps, List.mem_cons] at hp
    rcases hp with hp | hp
    · subst hp
      have := h x (by simp)
      omega
    · refine withSeps_le (fun z hz => h z ?_) p hp
      simpa using Or.inr (by simpa using hz)

lemma sum_le_mul_length : ∀ {ps : List Nat} {c : Nat}, (∀ p ∈ ps, p ≤ c) →
    ps.sum ≤ c * ps.length
  | [], _, _ => by simp
  | p :: rest, c, h => by
    simp only [List.sum_cons, List.length_cons]
    have h1 : p ≤ c := h p (by simp)
    have h2 : rest.sum ≤ c * rest.length :=
      sum_le_mul_length (fun q hq => h q (by simp [hq]))
    calc p + rest.sum ≤ c + c * rest.length := by omega
    _ = c * (rest.length + 1) := by ring

lemma snprintfBytes_le (s r : Nat) : snprintfBytes s r ≤ s := by
  unfold snprintfBytes
  split
  · omega
  · exact min_le_right _ _

lemma renderLoop_not_trunc {cap : Nat} :
    ∀ (ps : List Nat) (offset hw : Nat), offset + ps.sum < cap →
      (renderLoop cap ps offset hw).1 = offset + ps.sum ∧
      (renderLoop cap ps offset hw).2.1 = false
  | [], offset, hw, _ => by simp [renderLoop]
  | r :: rest, offset, hw, h => by
    simp only [List.sum_cons] at h
    have hfit : ¬ (cap - offset ≤ r) := by omega
    have hrec := renderLoop_not_trunc rest (offset + r)
      (max hw (offset + snprintfBytes (cap - offset) r))
      (show offset + r + rest.sum < cap by omega)
    simp only [renderLoop, if_neg hfit, List.sum_cons]
    refine ⟨?_, hrec.2⟩
    rw [hrec.1]
    omega

lemma renderLoop_offset_le {cap : Nat} :
    ∀ (ps : List Nat) (offset hw : Nat), offset ≤ cap →
      (renderLoop cap ps offset hw).1 ≤ cap
  | [], offset, hw, h => h
  | r :: rest, offset, hw, h => by
    simp only [renderLoop]
    split
    · exact h
    · exact renderLoop_offset_le rest (offset + r) _ (by omega)

lemma renderLoop_hw_le {cap : Nat} :
    ∀ (ps : List Nat) (offset hw : Nat), offset ≤ cap → hw ≤ cap →
      (renderLoop cap ps offset hw).2.2 ≤ cap
  | [], offset, hw, _, hhw => hhw
  | r :: rest, offset, hw, hoff, hhw => by
    have hb : offset + snprintfBytes (cap - offset) r ≤ cap := by
      have := snprintfBytes_le (cap - offset) r
      omega
    simp only [renderLoop]
    split
    · simp only []
      omega
    · exact renderLoop_hw_le rest (offset + r) _ (by omega) (by omega)

lemma renderLoop_complete {cap : Nat} :
    ∀ (ps : List Nat) (offset hw : Nat), (renderLoop cap ps offset hw).2.1 = false →
      (renderLoop cap ps offset hw).1 = offset + ps.sum
  | [], offset, hw, _ => by simp [renderLoop]
  | r :: rest, offset, hw, h => by
    simp only [renderLoop] at h ⊢
    by_cases hc : cap - offset ≤ r
    · rw [if_pos hc] at h
      simp at h
    · rw [if_neg hc] at h ⊢
      rw [renderLoop_complete rest (offset + r) _ h]
      simp only [List.sum_cons]
      omega

lemma arrayHeaderLen_le (n : Nat) : arrayHeaderLen n ≤ 34 := by
  unfold arrayHeaderLen
  have := natDecLen_le_eleven n
  omega

lemma arrayHeaderLen_le_of_small {n : Nat} (h : n ≤ 16) : arrayHeaderLen n ≤ 25 := by
  unfold arrayHeaderLen
  have := natDecLen_le_two (show n < 100 by omega)
  omega

lemma renderArrayStr_hw_le (l : List Int) : (renderArrayStr l).2.2 ≤ 256 := by
  unfold renderArrayStr
  simp only []
  have hhdr : arrayHeaderLen l.length ≤ 256 := le_trans (arrayHeaderLen_le _) (by omega)
  have h0 : snprintfBytes 256 (arrayHeaderLen l.length) ≤ 256 := snprintfBytes_le _ _
  have h1 := @renderLoop_hw_le 256 (withSeps intDecLen l)
    (arrayHeaderLen l.length) _ hhdr h0
  have h2 := @renderLoop_offset_le 256 (withSeps intDecLen l)
    (arrayHeaderLen l.length) (snprintfBytes 256 (arrayHeaderLen l.length)) hhdr
  have h3 := snprintfBytes_le
    (256 - (renderLoop 256 (withSeps intDecLen l) (arrayHeaderLen l.length)
      (snprintfBytes 256 (arrayHeaderLen l.length))).1) 1
  omega

lemma renderArrayStr_complete {l : List Int}
    (h : (renderArrayStr l).2.1 = false) :
    (renderArrayStr l).1 = arrayHeaderLen l.length + (withSeps intDecLen l).sum := by
  unfold renderArrayStr at h ⊢
  simp only [] at h ⊢
  exact renderLoop_complete _ _ _ h

lemma renderArrayStr_fits {l : List Int} (hlen : l.length ≤ 16)
    (h32 : ∀ x ∈ l, IsInt32 x) :
    (renderArrayStr l).1 ≤ 233 ∧ (renderArrayStr l).2.1 = false := by
  have hpieces : ∀ p ∈ withSeps intDecLen l, p ≤ 13 :=
    withSeps_le (fun x hx => intDecLen_le_eleven (h32 x hx))
  have hsum : (withSeps intDecLen l).sum ≤ 13 * l.length := by
    have := sum_le_mul_length hpieces
    rwa [withSeps_length] at this
  have hhdr := arrayHeaderLen_le_of_small hlen
  have hlt : arrayHeaderLen l.length + (withSeps intDecLen l).sum < 256 := by omega
  have := @renderLoop_not_trunc 256 (withSeps intDecLen l)
    (arrayHeaderLen l.length) (snprintfBytes 256 (arrayHeaderLen l.length)) hlt
  unfold renderArrayStr
  simp only []
  refine ⟨?_, this.2⟩
  rw [this.1]
  omega

lemma renderIndicesStr_hw_le (idxs : List Nat) : (renderIndicesStr idxs).2.2 ≤ 256 := by
  unfold renderIndicesStr
  simp only []
  have hhdr : indicesHeaderLen ≤ 256 := by unfold indicesHeaderLen; omega
  have h0 : snprintfBytes 256 indicesHeaderLen ≤ 256 := snprintfBytes_le _ _
  have h1 := @renderLoop_hw_le 256 (withSeps natDecLen idxs)
    indicesHeaderLen _ hhdr h0
  have h2 := @renderLoop_offset_le 256 (withSeps natDecLen idxs)
    indicesHeaderLen (snprintfBytes 256 indicesHeaderLen) hhdr
  have h3 := snprintfBytes_le
    (256 - (renderLoop 256 (withSeps natDecLen idxs) indicesHeaderLen
      (snprintfBytes 256 indicesHeaderLen)).1) 1
  omega

lemma renderIndicesStr_complete {idxs : List Nat}
    (h : (renderIndicesStr idxs).2.1 = false) :
    (renderIndicesStr idxs).1 = indicesHeaderLen + (withSeps natDecLen idxs).sum := by
  unfold renderIndicesStr at h ⊢
  simp only [] at h ⊢
  exact renderLoop_complete _ _ _ h

lemma renderIndicesStr_fits {idxs : List Nat} (hlen : idxs.length ≤ 16)
    (hb : ∀ j ∈ idxs, j < 100) :
    (renderIndicesStr idxs).1 ≤ 89 ∧ (renderIndicesStr idxs).2.1 = false := by
  have hpieces : ∀ p ∈ withSeps natDecLen idxs, p ≤ 4 :=
    withSeps_le (fun j hj => natDecLen_le_two (hb j hj))
  have hsum : (withSeps natDecLen idxs).sum ≤ 4 * idxs.length := by
    have := sum_le_mul_length hpieces
    rwa [withSeps_length] at this
  have hlt : indicesHeaderLen + (withSeps natDecLen idxs).sum < 256 := by
    unfold indicesHeaderLen; omega
  have := @renderLoop_not_trunc 256 (withSeps natDecLen idxs)
    indicesHeaderLen (snprintfBytes 256 indicesHeaderLen) hlt
  unfold renderIndicesStr
  simp only []
  refine ⟨?_, this.2⟩
  rw [this.1]
  unfold indicesHeaderLen at *
  omega

/-! ### Glue: the routine on a validly supplied parameter list -/

lemma find_max_init_valid (a : List Int) (h1 : 1 ≤ a.length) (h16 : a.length ≤ 16) :
    find_max_init a a.length = (0, some (computeOutput a)) := by
  unfold find_max_init
  rw [if_neg (show ¬ ((a.length : Int) ≤ 0) by omega)]
  rw [if_neg (show ¬ ((a.length : Int) > (MAX_ARRAY_SIZE : Int)) by
    unfold MAX_ARRAY_SIZE; push_cast; omega)]
  rw [Int.toNat_natCast, eff_self]

lemma computeOutput_maxVal (l : List Int) : (computeOutput l).maxVal = scanMax l := rfl

lemma computeOutput_indices (l : List Int) :
    (computeOutput l).indices = (collectIndices l (scanMax l)).1 := rfl

lemma computeOutput_overflowWarn (l : List Int) :
    (computeOutput l).overflowWarn = (collectIndices l (scanMax l)).2 := rfl

lemma computeOutput_arrayTruncWarn (l : List Int) :
    (computeOutput l).arrayTruncWarn = (renderArrayStr l).2.1 := rfl

lemma computeOutput_arrayStrOffset (l : List Int) :
    (computeOutput l).arrayStrOffset = (renderArrayStr l).1 := rfl

lemma computeOutput_arrayHW (l : List Int) :
    (computeOutput l).arrayHW = (renderArrayStr l).2.2 := rfl

lemma computeOutput_indicesHW (l : List Int) :
    (computeOutput l).indicesHW =
      (if 0 < (collectIndices l (scanMax l)).1.length
        then renderIndicesStr (collectIndices l (scanMax l)).1 else (0, false, 0)).2.2 := rfl

lemma computeOutput_noIndexWarn (l : List Int) :
    (computeOutput l).noIndexWarn = (collectIndices l (scanMax l)).1.isEmpty := rfl

lemma computeOutput_indices_valid {l : List Int} (h : l.length ≤ MAX_ARRAY_SIZE) :
    (computeOutput l).indices = matchIndices (scanMax l) l 0 := by
  rw [computeOutput_indices, collectIndices_eq _ h]

lemma computeOutput_indicesTrunc {l : List Int} :
    (computeOutput l).indicesTruncWarn =
      (if 0 < (collectIndices l (scanMax l)).1.length
        then renderIndicesStr (collectIndices l (scanMax l)).1 else (0, false, 0)).2.1 := rfl

lemma computeOutput_indicesStrOffset {l : List Int} :
    (computeOutput l).indicesStrOffset =
      (if 0 < (collectIndices l (scanMax l)).1.length
        then renderIndicesStr (collectIndices l (scanMax l)).1 else (0, false, 0)).1 := rfl

/-! ### Preservation of state fields through the state-passing view -/

lemma renderArrStep_input (s : KState) (i : Nat) :
    (renderArrStep s i).input_array = s.input_array := by
  simp only [renderArrStep]; split_ifs <;> rfl

lemma renderArrStep_num (s : KState) (i : Nat) :
    (renderArrStep s i).num_elements = s.num_elements := by
  simp only [renderArrStep]; split_ifs <;> rfl

lemma renderArrStep_max_val (s : KState) (i : Nat) :
    (renderArrStep s i).max_val = s.max_val := by
  simp only [renderArrStep]; split_ifs <;> rfl

lemma renderArrStep_max_indices (s : KState) (i : Nat) :
    (renderArrStep s i).max_indices = s.max_indices := by
  simp only [renderArrStep]; split_ifs <;> rfl

lemma renderArrStep_overflow (s : KState) (i : Nat) :
    (renderArrStep s i).overflowWarn = s.overflowWarn := by
  simp only [renderArrStep]; split_ifs <;> rfl

lemma scanStep_input (s : KState) (i : Nat) :
    (scanStep s i).input_array = s.input_array := by
  simp only [scanStep]; split_ifs <;> rfl

lemma scanStep_num (s : KState) (i : Nat) :
    (scanStep s i).num_elements = s.num_elements := by
  simp only [scanStep]; split_ifs <;> rfl

lemma scanStep_max_indices (s : KState) (i : Nat) :
    (scanStep s i).max_indices = s.max_indices := by
  simp only [scanStep]; split_ifs <;> rfl

lemma scanStep_overflow (s : KState) (i : Nat) :
    (scanStep s i).overflowWarn = s.overflowWarn := by
  simp only [scanStep]; split_ifs <;> rfl

lemma scanStep_max_val (s : KState) (i : Nat) :
    (scanStep s i).max_val =
      if s.input_array.getD i 0 > s.max_val then s.input_array.getD i 0
      else s.max_val := by
  simp only [scanStep]; split_ifs <;> rfl

lemma collectStep_input (s : KState) (i : Nat) :
    (collectStep s i).input_array = s.input_array := by
  simp only [collectStep]; split_ifs <;> rfl

lemma collectStep_num (s : KState) (i : Nat) :
    (collectStep s i).num_elements = s.num_elements := by
  simp only [collectStep]; split_ifs <;> rfl

lemma collectStep_max_val (s : KState) (i : Nat) :
    (collectStep s i).max_val = s.max_val := by
  simp only [collectStep]; split_ifs <;> rfl

lemma renderIndStep_input (s : KState) (i : Nat) :
    (renderIndStep s i).input_array = s.input_array := by
  simp only [renderIndStep]; split_ifs <;> rfl

lemma renderIndStep_num (s : KState) (i : Nat) :
    (renderIndStep s i).num_elements = s.num_elements := by
  simp only [renderIndStep]; split_ifs <;> rfl

lemma foldl_preserves {A : Type} (f : KState → A) {step : KState → Nat → KState}
    (hstep : ∀ s i, f (step s i) = f s) :
    ∀ (is : List Nat) (s : KState), f (is.foldl step s) = f s
  | [], _ => rfl
  | i :: rest, s => by
    simp only [List.foldl_cons]
    exact (foldl_preserves f hstep rest (step s i)).trans (hstep s i)

/-! ### The state-passing loops compute the same results as the functional
model -/

lemma foldl_scanStep_eq :
    ∀ (n i : Nat) (s : KState),
      ((List.range' i n).foldl scanStep s).max_val =
        scanMaxAux ((List.range' i n).map (fun j => s.input_array.getD j 0))
          s.max_val := by
  intro n
  induction n with
  | zero => intro i s; rfl
  | succ k ih =>
    intro i s
    rw [List.range'_succ]
    simp only [List.foldl_cons, List.map_cons, scanMaxAux]
    rw [ih (i + 1) (scanStep s i)]
    simp only [scanStep_input, scanStep_max_val]

lemma foldl_collectStep_idle :
    ∀ (is : List Nat) (s : KState), s.overflowWarn = true →
      is.foldl collectStep s = s
  | [], _, _ => rfl
  | i :: rest, s, h => by
    have hstep : collectStep s i = s := by
      simp only [collectStep, if_pos h]
    simp only [List.foldl_cons, hstep]
    exact foldl_collectStep_idle rest s h

lemma foldl_collectStep_eq :
    ∀ (n i : Nat) (s : KState), s.overflowWarn = false →
      (((List.range' i n).foldl collectStep s).max_indices,
       ((List.range' i n).foldl collectStep s).overflowWarn) =
        collectIndicesAux s.max_val
          ((List.range' i n).map (fun j => s.input_array.getD j 0)) i
          s.max_indices := by
  intro n
  induction n with
  | zero =>
    intro i s h
    show (s.max_indices, s.overflowWarn) = (s.max_indices, false)
    rw [h]
  | succ k ih =>
    intro i s h
    rw [List.range'_succ]
    simp only [List.foldl_cons, List.map_cons, collectIndicesAux]
    by_cases hx : s.input_array.getD i 0 = s.max_val
    · rw [if_pos hx]
      by_cases hlen : s.max_indices.length < MAX_ARRAY_SIZE
      · have hstep : collectStep s i = { s with max_indices := s.max_indices ++ [i] } := by
          simp only [collectStep, h, Bool.false_eq_true, if_false, if_pos hx, if_pos hlen]
        rw [if_pos hlen, hstep]
        exact ih (i + 1) _ h
      · have hstep : collectStep s i = { s with overflowWarn := true } := by
          simp only [collectStep, h, Bool.false_eq_true, if_false, if_pos hx, if_neg hlen]
        rw [if_neg hlen, hstep,
          foldl_collectStep_idle (List.range' (i + 1) k) _ rfl]
    · have hstep : collectStep s i = s := by
        simp only [collectStep, h, Bool.false_eq_true, if_false, if_neg hx]
      rw [if_neg hx, hstep]
      exact ih (i + 1) s h

lemma stateAfterArrRender_input (g : KGlobals) :
    (stateAfterArrRender g).input_array = g.input_array :=
  foldl_preserves KState.input_array renderArrStep_input _ _

lemma stateAfterArrRender_num (g : KGlobals) :
    (stateAfterArrRender g).num_elements = g.num_elements :=
  foldl_preserves KState.num_elements renderArrStep_num _ _

lemma stateAfterArrRender_max_val (g : KGlobals) :
    (stateAfterArrRender g).max_val = INT_MIN :=
  foldl_preserves KState.max_val renderArrStep_max_val _ _

lemma stateAfterArrRender_max_indices (g : KGlobals) :
    (stateAfterArrRender g).max_indices = [] :=
  foldl_preserves KState.max_indices renderArrStep_max_indices _ _

lemma stateAfterArrRender_overflow (g : KGlobals) :
    (stateAfterArrRender g).overflowWarn = false :=
  foldl_preserves KState.overflowWarn renderArrStep_overflow _ _

lemma stateAfterScan_input (g : KGlobals) :
    (stateAfterScan g).input_array = g.input_array :=
  (foldl_preserves KState.input_array scanStep_input _ _).trans
    (stateAfterArrRender_input g)

lemma stateAfterScan_num (g : KGlobals) :
    (stateAfterScan g).num_elements = g.num_elements :=
  (foldl_preserves KState.num_elements scanStep_num _ _).trans
    (stateAfterArrRender_num g)

lemma stateAfterScan_max_indices (g : KGlobals) :
    (stateAfterScan g).max_indices = [] :=
  (foldl_preserves KState.max_indices scanStep_max_indices _ _).trans
    (stateAfterArrRender_max_indices g)

lemma stateAfterScan_overflow (g : KGlobals) :
    (stateAfterScan g).overflowWarn = false :=
  (foldl_preserves KState.overflowWarn scanStep_overflow _ _).trans
    (stateAfterArrRender_overflow g)

/-- The first state-passing scan computes exactly the functional `scanMax` of
the effective element list. -/
lemma stateAfterScan_max_val (g : KGlobals) :
    (stateAfterScan g).max_val = scanMax (eff g.input_array g.num_elements.toNat) := by
  unfold stateAfterScan
  rw [List.range_eq_range']
  rw [foldl_scanStep_eq g.num_elements.toNat 0 (stateAfterArrRender g)]
  rw [stateAfterArrRender_input, stateAfterArrRender_max_val]
  unfold scanMax eff
  rw [List.range_eq_range']

lemma stateAfterCollect_input (g : KGlobals) :
    (stateAfterCollect g).input_array = g.input_array :=
  (foldl_preserves KState.input_array collectStep_input _ _).trans
    (stateAfterScan_input g)

lemma stateAfterCollect_num (g : KGlobals) :
    (stateAfterCollect g).num_elements = g.num_elements :=
  (foldl_preserves KState.num_elements collectStep_num _ _).trans
    (stateAfterScan_num g)

/-- The second state-passing scan computes exactly the functional
`collectIndices` of the effective element list at the computed maximum. -/
lemma stateAfterCollect_result (g : KGlobals) :
    ((stateAfterCollect g).max_indices, (stateAfterCollect g).overflowWarn) =
      collectIndices (eff g.input_array g.num_elements.toNat)
        (scanMax (eff g.input_array g.num_elements.toNat)) := by
  unfold stateAfterCollect
  rw [List.range_eq_range']
  rw [foldl_collectStep_eq g.num_elements.toNat 0 (stateAfterScan g)
    (stateAfterScan_overflow g)]
  rw [stateAfterScan_input, stateAfterScan_max_val, stateAfterScan_max_indices]
  unfold collectIndices eff
  rw [List.range_eq_range']

lemma stateFinal_input (g : KGlobals) :
    (stateFinal g).input_array = g.input_array := by
  unfold stateFinal
  split
  · exact (foldl_preserves KState.input_array renderIndStep_input _ _).trans
      (stateAfterCollect_input g)
  · exact stateAfterCollect_input g

lemma stateFinal_num (g : KGlobals) :
    (stateFinal g).num_elements = g.num_elements := by
  unfold stateFinal
  split
  · exact (foldl_preserves KState.num_elements renderIndStep_num _ _).trans
      (stateAfterCollect_num g)
  · exact stateAfterCollect_num g

/-! ### Further helpers for degradation and capacity claims -/

lemma renderLoop_le_sum {cap : Nat} :
    ∀ (ps : List Nat) (offset hw : Nat),
      (renderLoop cap ps offset hw).1 ≤ offset + ps.sum
  | [], offset, hw => by simp [renderLoop]
  | r :: rest, offset, hw => by
    simp only [renderLoop, List.sum_cons]
    split
    · omega
    · have := @renderLoop_le_sum cap rest (offset + r)
        (max hw (offset + snprintfBytes (cap - offset) r))
      omega

lemma collectIndicesAux_overflow {m : Int} :
    ∀ {l : List Int} {i : Nat} {acc : List Nat}, acc.length ≤ MAX_ARRAY_SIZE →
      (collectIndicesAux m l i acc).2 = true →
      (collectIndicesAux m l i acc).1.length = MAX_ARRAY_SIZE
  | [], _, acc, _, h => by simp [collectIndicesAux] at h
  | x :: rest, i, acc, hacc, h => by
    simp only [collectIndicesAux] at h ⊢
    by_cases hx : x = m
    · rw [if_pos hx] at h ⊢
      by_cases hlen : acc.length < MAX_ARRAY_SIZE
      · rw [if_pos hlen] at h ⊢
        exact collectIndicesAux_overflow (by simp; omega) h
      · rw [if_neg hlen] at h ⊢
        show acc.length = MAX_ARRAY_SIZE
        omega
    · rw [if_neg hx] at h ⊢
      exact collectIndicesAux_overflow hacc h

lemma collectIndicesAux_length_le {m : Int} :
    ∀ {l : List Int} {i : Nat} {acc : List Nat}, acc.length ≤ MAX_ARRAY_SIZE →
      (collectIndicesAux m l i acc).1.length ≤ MAX_ARRAY_SIZE
  | [], _, acc, hacc => hacc
  | x :: rest, i, acc, hacc => by
    simp only [collectIndicesAux]
    by_cases hx : x = m
    · rw [if_pos hx]
      by_cases hlen : acc.length < MAX_ARRAY_SIZE
      · rw [if_pos hlen]
        exact collectIndicesAux_length_le (by simp; omega)
      · rw [if_neg hlen]
        exact hacc
    · rw [if_neg hx]
      exact collectIndicesAux_length_le hacc

/-! ## The claims -/

/-- C1: For every valid input array of length 1 to 16 (signed 32-bit
elements, `num_elements` equal to the supplied length), every index returned
by the routine satisfies `array[index] == result.value`, the result value is
`>= array[i]` for every index `i`, and so no element exceeds the result
value. -/
theorem C1_indices_sound_value_dominant (a : List Int)
    (h1 : 1 ≤ a.length) (h16 : a.length ≤ 16) (_h32 : ∀ x ∈ a, IsInt32 x) :
    ∃ o : InitOutput, (find_max_init a a.length).2 = some o ∧
      (∀ j ∈ o.indices, a.getD j 0 = o.maxVal) ∧
      (∀ i, i < a.length → a.getD i 0 ≤ o.maxVal) := by
  refine ⟨computeOutput a, ?_, ?_, ?_⟩
  · rw [find_max_init_valid a h1 h16]
  · intro j hj
    rw [computeOutput_indices_valid (show a.length ≤ MAX_ARRAY_SIZE from h16)] at hj
    rw [computeOutput_maxVal]
    have h := mem_matchIndices hj
    simpa using h.2.2
  · intro i hi
    rw [computeOutput_maxVal]
    have hmem : a.getD i 0 ∈ a := by
      rw [List.getD_eq_getElem a 0 hi]
      exact List.getElem_mem hi
    exact le_scanMax hmem

/-- Witness for C1 at the input `[1, 2, 3]`. -/
theorem C1_witness :
    ∃ o : InitOutput,
      (find_max_init [1, 2, 3] (([1, 2, 3] : List Int).length : Int)).2 = some o ∧
      (∀ j ∈ o.indices, ([1, 2, 3] : List Int).getD j 0 = o.maxVal) ∧
      (∀ i, i < ([1, 2, 3] : List Int).length →
        ([1, 2, 3] : List Int).getD i 0 ≤ o.maxVal) :=
  C1_indices_sound_value_dominant [1, 2, 3] (by decide) (by decide) (by decide)

/-- C2: For every valid input array of length 1 to 16, the collected index
list is strictly increasing and non-empty, and the empty-result
("should not happen") branch is not taken. -/
theorem C2_indices_increasing_nonempty (a : List Int)
    (h1 : 1 ≤ a.length) (h16 : a.length ≤ 16) (h32 : ∀ x ∈ a, IsInt32 x) :
    ∃ o : InitOutput, (find_max_init a a.length).2 = some o ∧
      List.Pairwise (· < ·) o.indices ∧ o.indices ≠ [] ∧ o.noIndexWarn = false := by
  have hne : a ≠ [] := by
    intro h
    rw [h] at h1
    simp at h1
  have hmem : scanMax a ∈ a := scanMax_mem hne (fun x hx => (h32 x hx).1)
  have hidx : (computeOutput a).indices = matchIndices (scanMax a) a 0 :=
    computeOutput_indices_valid h16
  refine ⟨computeOutput a, ?_, ?_, ?_, ?_⟩
  · rw [find_max_init_valid a h1 h16]
  · rw [hidx]
    exact matchIndices_pairwise _ _ _
  · rw [hidx]
    exact matchIndices_ne_nil hmem 0
  · rw [computeOutput_noIndexWarn, collectIndices_eq (scanMax a) h16]
    show (matchIndices (scanMax a) a 0).isEmpty = false
    cases hM : matchIndices (scanMax a) a 0 with
    | nil => exact absurd hM (matchIndices_ne_nil hmem 0)
    | cons b t => rfl

/-- Witness for C2 at the input `[5, 5, 5]`. -/
theorem C2_witness :
    ∃ o : InitOutput,
      (find_max_init [5, 5, 5] (([5, 5, 5] : List Int).length : Int)).2 = some o ∧
      List.Pairwise (· < ·) o.indices ∧ o.indices ≠ [] ∧ o.noIndexWarn = false :=
  C2_indices_increasing_nonempty [5, 5, 5] (by decide) (by decide) (by decide)

/-- C3: The routine fails with `-EINVAL` (= `-22`) iff the element count is
`≤ 0` or `> 16`, and it returns `0` (success) for every count from 1 to 16. -/
theorem C3_validation (a : List Int) (num_elements : Int) :
    ((find_max_init a num_elements).1 = -22 ↔
      (num_elements ≤ 0 ∨ num_elements > 16)) ∧
    (1 ≤ num_elements → num_elements ≤ 16 →
      (find_max_init a num_elements).1 = 0) := by
  have hM : ((MAX_ARRAY_SIZE : Nat) : Int) = 16 := by norm_num [MAX_ARRAY_SIZE]
  unfold find_max_init
  rw [hM]
  constructor
  · split_ifs with hc1 hc2
    · simp [hc1]
    · simp [hc2]
    · simp only [show ((0 : Int) = -22) = False by simp, false_iff]
      omega
  · intro h1 h2
    split_ifs with hc1 hc2
    · omega
    · omega
    · rfl

/-- Witness for C3 at element count 1. -/
theorem C3_witness :
    ((find_max_init [1] 1).1 = -22 ↔ ((1 : Int) ≤ 0 ∨ (1 : Int) > 16)) ∧
    (find_max_init [1] 1).1 = 0 :=
  ⟨(C3_validation [1] 1).1, (C3_validation [1] 1).2 (by norm_num) (by norm_num)⟩

/-- C4: The first scan's running maximum is seeded at `INT_MIN`, and for every
non-empty array of 32-bit values — including arrays whose elements are all
`INT_MIN` — the value after the scan is an element of the array and dominates
every element, i.e. it equals the largest element. -/
theorem C4_scan_seeded_at_int_min (l : List Int) (hne : l ≠ [])
    (h32 : ∀ x ∈ l, IsInt32 x) :
    scanMax l = scanMaxAux l INT_MIN ∧ scanMax l ∈ l ∧ ∀ x ∈ l, x ≤ scanMax l :=
  ⟨rfl, scanMax_mem hne (fun x hx => (h32 x hx).1), fun _ hx => le_scanMax hx⟩

/-- Witness for C4 at an array whose elements are all `INT_MIN`. -/
theorem C4_witness :
    scanMax [-2147483648, -2147483648] =
      scanMaxAux ([-2147483648, -2147483648] : List Int) INT_MIN ∧
    scanMax [-2147483648, -2147483648] ∈ ([-2147483648, -2147483648] : List Int) ∧
    ∀ x ∈ ([-2147483648, -2147483648] : List Int),
      x ≤ scanMax [-2147483648, -2147483648] :=
  C4_scan_seeded_at_int_min [-2147483648, -2147483648] (by decide) (by decide)

/-- C5: The three worked examples of the spec: `[1,2,3]` gives value 3 at
index list `[2]`; `[5,5,5]` gives value 5 at `[0,1,2]`; `[-5,-1,-5]` gives
value -1 at `[1]`. -/
theorem C5_worked_examples :
    ((find_max_init [1, 2, 3] 3).2.map InitOutput.maxVal = some 3 ∧
      (find_max_init [1, 2, 3] 3).2.map InitOutput.indices = some [2]) ∧
    ((find_max_init [5, 5, 5] 3).2.map InitOutput.maxVal = some 5 ∧
      (find_max_init [5, 5, 5] 3).2.map InitOutput.indices = some [0, 1, 2]) ∧
    ((find_max_init [-5, -1, -5] 3).2.map InitOutput.maxVal = some (-1) ∧
      (find_max_init [-5, -1, -5] 3).2.map InitOutput.indices = some [1]) := by
  decide

/-- C6: String truncation and index-storage overflow are non-fatal: whenever
the element count passes validation the routine still returns 0 and produces
its output; on overflow the index list is cut at the 16 slots that fit, and a
truncated rendering still never wrote past the 256-byte buffer. -/
theorem C6_warnings_nonfatal (a : List Int) (num_elements : Int)
    (h1 : 0 < num_elements) (h16 : num_elements ≤ 16) :
    (find_max_init a num_elements).1 = 0 ∧
    (∃ o : InitOutput, (find_max_init a num_elements).2 = some o ∧
      (o.overflowWarn = true → o.indices.length = MAX_ARRAY_SIZE) ∧
      (o.arrayTruncWarn = true → o.arrayHW ≤ 256) ∧
      (o.indicesTruncWarn = true → o.indicesHW ≤ 256)) := by
  have hM : ((MAX_ARRAY_SIZE : Nat) : Int) = 16 := by norm_num [MAX_ARRAY_SIZE]
  have hval : find_max_init a num_elements =
      (0, some (computeOutput (eff a num_elements.toNat))) := by
    unfold find_max_init
    rw [hM, if_neg (show ¬ (num_elements ≤ 0) by omega),
      if_neg (show ¬ (num_elements > 16) by omega)]
  rw [hval]
  refine ⟨rfl, computeOutput (eff a num_elements.toNat), rfl, ?_, ?_, ?_⟩
  · intro hov
    rw [computeOutput_indices]
    rw [computeOutput_overflowWarn] at hov
    exact collectIndicesAux_overflow (by simp) hov
  · intro _
    rw [computeOutput_arrayHW]
    exact renderArrayStr_hw_le _
  · intro _
    rw [computeOutput_indicesHW]
    split
    · exact renderIndicesStr_hw_le _
    · decide

/-- Witness for C6 at the input `[7]` with count 1. -/
theorem C6_witness :
    (find_max_init [7] 1).1 = 0 ∧
    (∃ o : InitOutput, (find_max_init [7] 1).2 = some o ∧
      (o.overflowWarn = true → o.indices.length = MAX_ARRAY_SIZE) ∧
      (o.arrayTruncWarn = true → o.arrayHW ≤ 256) ∧
      (o.indicesTruncWarn = true → o.indicesHW ≤ 256)) :=
  C6_warnings_nonfatal [7] 1 (by norm_num) (by norm_num)

/-- C7: Rendering never writes past the 256-byte buffers: the high-water mark
of every `snprintf` write stays within 256 for both strings, and when no
truncation warning is raised the full text was rendered (so a missing piece
always comes with the warning). -/
theorem C7_render_within_buffers (l : List Int) (idxs : List Nat) :
    (renderArrayStr l).2.2 ≤ 256 ∧ (renderIndicesStr idxs).2.2 ≤ 256 ∧
    ((renderArrayStr l).2.1 = false →
      (renderArrayStr l).1 = arrayHeaderLen l.length + (withSeps intDecLen l).sum) ∧
    ((renderIndicesStr idxs).2.1 = false →
      (renderIndicesStr idxs).1 = indicesHeaderLen + (withSeps natDecLen idxs).sum) :=
  ⟨renderArrayStr_hw_le l, renderIndicesStr_hw_le idxs,
    fun h => renderArrayStr_complete h, fun h => renderIndicesStr_complete h⟩

/-- Witness for C7 at the array `[1, 2, 3]` and index list `[2]`. -/
theorem C7_witness :
    (renderArrayStr [1, 2, 3]).2.2 ≤ 256 ∧ (renderIndicesStr [2]).2.2 ≤ 256 ∧
    (renderArrayStr [1, 2, 3]).1 =
      arrayHeaderLen ([1, 2, 3] : List Int).length + (withSeps intDecLen [1, 2, 3]).sum ∧
    (renderIndicesStr [2]).1 = indicesHeaderLen + (withSeps natDecLen [2]).sum :=
  ⟨(C7_render_within_buffers [1, 2, 3] [2]).1,
    (C7_render_within_buffers [1, 2, 3] [2]).2.1,
    (C7_render_within_buffers [1, 2, 3] [2]).2.2.1 (by decide),
    (C7_render_within_buffers [1, 2, 3] [2]).2.2.2 (by decide)⟩

/-- C8: The whole computation — validation, both scans, and the two rendering
loops — leaves the globals `input_array` and `num_elements` exactly as
supplied, and the state-passing view returns the same exit status as the
functional model. -/
theorem C8_globals_immutable (g : KGlobals) :
    (find_max_init_st g).1 = g ∧
    (find_max_init_st g).2 = (find_max_init g.input_array g.num_elements).1 := by
  unfold find_max_init_st find_max_init
  split_ifs
  · exact ⟨rfl, rfl⟩
  · exact ⟨rfl, rfl⟩
  · refine ⟨?_, rfl⟩
    show ({ input_array := (stateFinal g).input_array
            num_elements := (stateFinal g).num_elements } : KGlobals) = g
    rw [stateFinal_input, stateFinal_num]

/-- C9: For every valid input (count 1 to 16) the number of collected indices
never exceeds the 16 slots of `max_indices`, and the overflow-warning branch
is not taken. -/
theorem C9_index_storage_never_overflows (a : List Int)
    (h1 : 1 ≤ a.length) (h16 : a.length ≤ 16) :
    ∃ o : InitOutput, (find_max_init a a.length).2 = some o ∧
      o.indices.length ≤ MAX_ARRAY_SIZE ∧ o.overflowWarn = false := by
  refine ⟨computeOutput a, ?_, ?_, ?_⟩
  · rw [find_max_init_valid a h1 h16]
  · rw [computeOutput_indices_valid h16]
    exact le_trans (matchIndices_length_le _ _ _) h16
  · rw [computeOutput_overflowWarn, collectIndices_eq (scanMax a) h16]

/-- Witness for C9 at the input `[5, 5, 5]`. -/
theorem C9_witness :
    ∃ o : InitOutput,
      (find_max_init [5, 5, 5] (([5, 5, 5] : List Int).length : Int)).2 = some o ∧
      o.indices.length ≤ MAX_ARRAY_SIZE ∧ o.overflowWarn = false :=
  C9_index_storage_never_overflows [5, 5, 5] (by decide) (by decide)

/-- C10: For every valid input of at most 16 signed 32-bit integers, the
fully rendered array and indices strings fit in their 256-byte buffers —
fewer than 240 bytes each including the closing bracket and NUL — so neither
truncation-warning branch is taken. -/
theorem C10_rendered_strings_fit (a : List Int)
    (h1 : 1 ≤ a.length) (h16 : a.length ≤ 16) (h32 : ∀ x ∈ a, IsInt32 x) :
    ∃ o : InitOutput, (find_max_init a a.length).2 = some o ∧
      o.arrayTruncWarn = false ∧ o.arrayStrOffset + 2 < 240 ∧ o.arrayHW ≤ 256 ∧
      o.indicesTruncWarn = false ∧ o.indicesStrOffset + 2 < 240 ∧
      o.indicesHW ≤ 256 := by
  have hafit := renderArrayStr_fits h16 h32
  have hcoll : collectIndices a (scanMax a) = (matchIndices (scanMax a) a 0, false) :=
    collectIndices_eq (scanMax a) h16
  have hlen : (collectIndices a (scanMax a)).1.length ≤ 16 := by
    rw [hcoll]
    exact le_trans (matchIndices_length_le _ _ _) h16
  have hmem100 : ∀ j ∈ (collectIndices a (scanMax a)).1, j < 100 := by
    rw [hcoll]
    intro j hj
    have h := (mem_matchIndices hj).2.1
    omega
  have hifit := renderIndicesStr_fits hlen hmem100
  refine ⟨computeOutput a, ?_, ?_, ?_, ?_, ?_, ?_, ?_⟩
  · rw [find_max_init_valid a h1 h16]
  · rw [computeOutput_arrayTruncWarn]
    exact hafit.2
  · rw [computeOutput_arrayStrOffset]
    omega
  · rw [computeOutput_arrayHW]
    exact renderArrayStr_hw_le a
  · rw [computeOutput_indicesTrunc]
    split
    · exact hifit.2
    · rfl
  · rw [computeOutput_indicesStrOffset]
    split
    · omega
    · omega
  · rw [computeOutput_indicesHW]
    split
    · exact renderIndicesStr_hw_le _
    · decide

/-- Witness for C10 at the input `[1, 2, 3]`. -/
theorem C10_witness :
    ∃ o : InitOutput,
      (find_max_init [1, 2, 3] (([1, 2, 3] : List Int).length : Int)).2 = some o ∧
      o.arrayTruncWarn = false ∧ o.arrayStrOffset + 2 < 240 ∧ o.arrayHW ≤ 256 ∧
      o.indicesTruncWarn = false ∧ o.indicesStrOffset + 2 < 240 ∧
      o.indicesHW ≤ 256 :=
  C10_rendered_strings_fit [1, 2, 3] (by decide) (by decide) (by decide)

end FindMaxModule
